import Mathlib

/-!
Verification of the appenv environment cache and lock-resolution engine.

The definitions below are a shallow embedding of `src/appenv.py`:

* the identity hasher (`_prepare`, lines 198-204): SHA-256 over the
  concatenation of interpreter-path bytes, lock bytes and the program's own
  bytes, hex-encoded and truncated to 8 characters;
* the lock merger (`update_lockfile`, lines 155-181);
* the environment store, janitor and builder (`_prepare`, lines 184-246),
  modelled as explicit state passing over a directory-children map, with
  external commands (venv creation, pip install, pip check, the lock write)
  decided by an oracle of success bits, and an event trace recording every
  filesystem mutation and issued command.
-/

/-! ## Byte strings -/

/-- A byte string: each element is a byte value (0-255 in all uses). -/
abbrev Bytes := List Nat

/-! ## SHA-256 (as used by `hashlib.new("sha256", ...)`)

Pure executable implementation over `Nat` with explicit reduction mod 2^32.
-/

/-- 2^32, the word modulus. -/
def M32 : Nat := 4294967296

/-- 32-bit right rotation. -/
def rotr32 (x n : Nat) : Nat := ((x >>> n) ||| (x <<< (32 - n))) % M32

/-- Bitwise complement within 32 bits. -/
def not32 (x : Nat) : Nat := x ^^^ 4294967295

/-- SHA-256 Ch function. -/
def shaCh (x y z : Nat) : Nat := (x &&& y) ^^^ (not32 x &&& z)

/-- SHA-256 Maj function. -/
def shaMaj (x y z : Nat) : Nat := (x &&& y) ^^^ (x &&& z) ^^^ (y &&& z)

/-- SHA-256 big sigma 0. -/
def bSig0 (x : Nat) : Nat := rotr32 x 2 ^^^ rotr32 x 13 ^^^ rotr32 x 22

/-- SHA-256 big sigma 1. -/
def bSig1 (x : Nat) : Nat := rotr32 x 6 ^^^ rotr32 x 11 ^^^ rotr32 x 25

/-- SHA-256 small sigma 0. -/
def sSig0 (x : Nat) : Nat := rotr32 x 7 ^^^ rotr32 x 18 ^^^ (x >>> 3)

/-- SHA-256 small sigma 1. -/
def sSig1 (x : Nat) : Nat := rotr32 x 17 ^^^ rotr32 x 19 ^^^ (x >>> 10)

/-- The 64 SHA-256 round constants (decimal). -/
def shaK : List Nat :=
  [1116352408, 1899447441, 3049323471, 3921009573, 961987163, 1508970993,
   2453635748, 2870763221, 3624381080, 310598401, 607225278, 1426881987,
   1925078388, 2162078206, 2614888103, 3248222580, 3835390401, 4022224774,
   264347078, 604807628, 770255983, 1249150122, 1555081692, 1996064986,
   2554220882, 2821834349, 2952996808, 3210313671, 3336571891, 3584528711,
   113926993, 338241895, 666307205, 773529912, 1294757372, 1396182291,
   1695183700, 1986661051, 2177026350, 2456956037, 2730485921, 2820302411,
   3259730800, 3345764771, 3516065817, 3600352804, 4094571909, 275423344,
   430227734, 506948616, 659060556, 883997877, 958139571, 1322822218,
   1537002063, 1747873779, 1955562222, 2024104815, 2227730452, 2361852424,
   2428436474, 2756734187, 3204031479, 3329325298]

/-- Extend the message schedule: `n` more words, accumulator most-recent-first. -/
def extendSched : Nat → List Nat → List Nat
  | 0, acc => acc
  | n + 1, acc =>
    let g (k : Nat) : Nat := (acc.get? (k - 1)).getD 0
    let w := (sSig1 (g 2) + g 7 + sSig0 (g 15) + g 16) % M32
    extendSched n (w :: acc)

/-- Full 64-word message schedule from a 16-word block. -/
def schedule (block : List Nat) : List Nat :=
  (extendSched 48 block.reverse).reverse

/-- The eight working variables of the compression function. -/
structure H8 where
  a : Nat
  b : Nat
  c : Nat
  d : Nat
  e : Nat
  f : Nat
  g : Nat
  h : Nat
deriving Repr, DecidableEq

/-- One round of the SHA-256 compression function. -/
def round1 (st : H8) (k w : Nat) : H8 :=
  let t1 := (st.h + bSig1 st.e + shaCh st.e st.f st.g + k + w) % M32
  let t2 := (bSig0 st.a + shaMaj st.a st.b st.c) % M32
  ⟨(t1 + t2) % M32, st.a, st.b, st.c, (st.d + t1) % M32, st.e, st.f, st.g⟩

/-- Compress one 16-word block into the running state. -/
def compressBlock (st : H8) (block : List Nat) : H8 :=
  let ws := schedule block
  let r := (shaK.zip ws).foldl (fun s p => round1 s p.1 p.2) st
  ⟨(st.a + r.a) % M32, (st.b + r.b) % M32, (st.c + r.c) % M32, (st.d + r.d) % M32,
   (st.e + r.e) % M32, (st.f + r.f) % M32, (st.g + r.g) % M32, (st.h + r.h) % M32⟩

/-- SHA-256 initial hash value. -/
def shaInit : H8 :=
  ⟨1779033703, 3144134277, 1013904242, 2773480762,
   1359893119, 2600822924, 528734635, 1541459225⟩

/-- Group bytes into big-endian 32-bit words (input length a multiple of 4). -/
def bytesToWords : Bytes → List Nat
  | a :: b :: c :: d :: rest =>
    (a * 16777216 + b * 65536 + c * 256 + d) :: bytesToWords rest
  | _ => []

/-- Split a word list into 16-word blocks (input length a multiple of 16). -/
def chunk16 : List Nat → List (List Nat)
  | w0 :: w1 :: w2 :: w3 :: w4 :: w5 :: w6 :: w7 ::
    w8 :: w9 :: w10 :: w11 :: w12 :: w13 :: w14 :: w15 :: rest =>
    [w0, w1, w2, w3, w4, w5, w6, w7, w8, w9, w10, w11, w12, w13, w14, w15] ::
      chunk16 rest
  | _ => []

/-- SHA-256 padding: append 0x80, zero bytes, and the 64-bit big-endian
bit length, reaching a multiple of 64 bytes. -/
def padMsg (m : Bytes) : Bytes :=
  let L := m.length
  let z := (119 - L % 64) % 64
  let bl := 8 * L
  m ++ [128] ++ List.replicate z 0 ++
    [(bl >>> 56) % 256, (bl >>> 48) % 256, (bl >>> 40) % 256, (bl >>> 32) % 256,
     (bl >>> 24) % 256, (bl >>> 16) % 256, (bl >>> 8) % 256, bl % 256]

/-- The final SHA-256 state over a byte message. -/
def sha256State (m : Bytes) : H8 :=
  (chunk16 (bytesToWords (padMsg m))).foldl compressBlock shaInit

/-- Lower-case hex digit. -/
def hexChar (n : Nat) : Char :=
  if n < 10 then Char.ofNat (48 + n) else Char.ofNat (87 + n)

/-- A 32-bit word as 8 lower-case hex characters. -/
def word2hex (w : Nat) : List Char :=
  [hexChar ((w >>> 28) &&& 15), hexChar ((w >>> 24) &&& 15),
   hexChar ((w >>> 20) &&& 15), hexChar ((w >>> 16) &&& 15),
   hexChar ((w >>> 12) &&& 15), hexChar ((w >>> 8) &&& 15),
   hexChar ((w >>> 4) &&& 15), hexChar (w &&& 15)]

/-- The hex digest of SHA-256, as `hashlib`'s `hexdigest()` returns it. -/
def sha256hex (m : Bytes) : String :=
  let st := sha256State m
  String.mk (word2hex st.a ++ word2hex st.b ++ word2hex st.c ++ word2hex st.d ++
             word2hex st.e ++ word2hex st.f ++ word2hex st.g ++ word2hex st.h)

/-- The concatenated hash preimage: `b"".join(hash_content)` in `_prepare`
(interpreter path bytes, then lock bytes, then the program's own bytes). -/
def hashInput (interp lock self : Bytes) : Bytes := interp ++ lock ++ self

/-- The environment identity token: `hexdigest()[:8]` of the SHA-256 of the
unseparated concatenation of the three inputs (`_prepare`, lines 198-204). -/
def envHash (interp lock self : Bytes) : String :=
  (sha256hex (hashInput interp lock self)).take 8

/-! ## Lock merger (`update_lockfile`, lines 155-181)

A `Spec` is one parsed requirement (`pkg_resources.parse_requirements`):
its normalized project name, its full string form (`str(spec)`), and its
optional source URL. Python dicts keyed by project name are modelled as
association lists where updating an existing key replaces the value in
place (insertion order preserved, as in Python 3.7+).
-/

/-- One parsed dependency specification. -/
structure Spec where
  project_name : String
  str : String
  url : Option String
deriving Repr, DecidableEq

/-- Dictionary lookup in an association list keyed by `String`. -/
def alookup {α : Type} : List (String × α) → String → Option α
  | [], _ => none
  | p :: rest, k => if p.1 = k then some p.2 else alookup rest k

/-- Dictionary update `d[k] = v`: replace in place or append. -/
def dinsert {α : Type} : List (String × α) → String → α → List (String × α)
  | [], k, v => [(k, v)]
  | p :: rest, k, v => if p.1 = k then (k, v) :: rest else p :: dinsert rest k v

/-- Build a dict from parsed lines, later lines overwriting earlier ones
(`pinned_versions` from the freeze output, `requested_versions` from
`requirements.txt`). -/
def dictOf (specs : List Spec) : List (String × Spec) :=
  specs.foldl (fun d sp => dinsert d sp.project_name sp) []

/-- First merge loop (lines 166-170): pick requested specs carrying a URL. -/
def urlPass (reqDict : List (String × Spec)) : List (String × Spec) :=
  reqDict.foldl (fun acc p => if p.2.url.isSome then dinsert acc p.1 p.2 else acc) []

/-- Second merge loop (lines 171-175): add resolved specs whose name was not
already picked. -/
def pinnedPass (pinDict acc0 : List (String × Spec)) : List (String × Spec) :=
  pinDict.foldl
    (fun acc p => if (alookup acc p.1).isSome then acc else dinsert acc p.1 p.2) acc0

/-- `final_versions`: the merged name-to-spec dict. -/
def mergeVersions (requested resolved : List Spec) : List (String × Spec) :=
  pinnedPass (dictOf resolved) (urlPass (dictOf requested))

/-- The output lines: `str(spec)` of every merged spec, sorted
(`lines.sort()`, lexicographic on strings). -/
def mergeLines (requested resolved : List Spec) : List String :=
  List.insertionSort (· ≤ ·) ((mergeVersions requested resolved).map (fun p => p.2.str))

/-- The written lock document: lines joined by newline plus a trailing
newline (lines 178-180). -/
def lockDocument (requested resolved : List Spec) : String :=
  String.intercalate "\n" (mergeLines requested resolved) ++ "\n"

/-! ## Environment store (`_prepare`, lines 184-246)

The store is the `appenvdir` directory: a list of named children, each a
plain file or a directory. For a directory we track exactly the pieces of
state the code inspects or writes: whether `bin/pip3` exists (the probe in
`ensure_venv`), the `requirements.lock` copy persisted into the entry, and
whether the `appenv.ready` marker file exists. External commands either
succeed or raise `ValueError` (via `cmd`); which ones succeed is decided by
an `Oracle`. Every mutation and issued command is recorded in a trace.
-/

/-- One child of the store directory. -/
inductive Child where
  | file : Child
  | dir (hasPip : Bool) (lock : Option Bytes) (ready : Bool) : Child
deriving Repr, DecidableEq

/-- `os.path.exists(dir/appenv.ready)`: only a directory with the marker. -/
def childReady : Child → Bool
  | Child.file => false
  | Child.dir _ _ r => r

/-- The store: the children of `meta_args.appenvdir`, by name. -/
structure Store where
  children : List (String × Child)
deriving Repr, DecidableEq

/-- `rm -rf` of one child (also no-op when absent). -/
def aremove {α : Type} (l : List (String × α)) (k : String) : List (String × α) :=
  l.filter (fun p => !(p.1 == k))

/-- Create or replace one child in place. -/
def aset {α : Type} : List (String × α) → String → α → List (String × α)
  | [], k, c => [(k, c)]
  | p :: rest, k, c => if p.1 = k then (k, c) :: rest else p :: aset rest k c

/-- Success bits for the external commands issued during a prepare run. -/
structure Oracle where
  venvOk : Bool
  installOk : Bool
  checkOk : Bool
deriving Repr, DecidableEq

/-- Observable actions of a prepare run, in order. -/
inductive Event where
  | removedExpired (name : String)
  | deletedCorrupt (name : String)
  | deletedUncleanTarget (name : String)
  | createdVenv (name : String)
  | ensuredPip (name : String)
  | wroteLock (name : String)
  | pipInstallNoDeps (name : String)
  | pipCheck (name : String)
  | wroteMarker (name : String)
  | pipInstallUpgrade (name : String)
deriving Repr, DecidableEq

deriving instance DecidableEq for Except

/-- Result of a prepare run: the returned path (or the raised error), the
final store, and the trace. -/
structure PrepResult where
  res : Except Unit String
  store : Store
  trace : List Event
deriving Repr, DecidableEq

/-- `ensure_venv(target)` (lines 58-130): if `target/bin/pip3` exists,
return at once; otherwise delete any unclean target, create the venv and
bootstrap pip (the external commands succeed iff `ok`). Returns the success
flag, the new store and the events. -/
def ensure_venv (ok : Bool) (s : Store) (t : String) : Bool × Store × List Event :=
  match alookup s.children t with
  | some (Child.dir true _ _) => (true, s, [])
  | some _ =>
    let ev := [Event.deletedUncleanTarget t, Event.createdVenv t, Event.ensuredPip t]
    let s1 : Store := ⟨aset (aremove s.children t) t (Child.dir false none false)⟩
    if ok then (true, ⟨aset s1.children t (Child.dir true none false)⟩, ev)
    else (false, s1, ev)
  | none =>
    let ev := [Event.createdVenv t, Event.ensuredPip t]
    let s1 : Store := ⟨aset s.children t (Child.dir false none false)⟩
    if ok then (true, ⟨aset s1.children t (Child.dir true none false)⟩, ev)
    else (false, s1, ev)

/-- Whether a child name is hidden from the janitor's enumeration:
`glob.glob(appenvdir/*)` never lists names beginning with a dot. -/
def hiddenName (n : String) : Bool :=
  match n.data with
  | [] => false
  | c :: _ => c == '.'

/-- The janitor (lines 207-216). It enumerates children via
`glob.glob(appenvdir/*)`, which skips dot-prefixed names, and removes every
enumerated child whose name is not in the whitelist. A child therefore
survives iff its name starts with a dot (never enumerated) or is
whitelisted. -/
def pruneChildren (l : List (String × Child)) (wl : List String) :
    List (String × Child) :=
  l.filter (fun p => hiddenName p.1 || wl.contains p.1)

/-- The removal events the janitor prints: one per enumerated (non-hidden)
child outside the whitelist. -/
def pruneEvents (l : List (String × Child)) (wl : List String) : List Event :=
  (l.filter (fun p => !(hiddenName p.1) && !(wl.contains p.1))).map
    (fun p => Event.removedExpired p.1)

/-- Write `env_dir/requirements.lock` (lines 233-234). -/
def writeLockFile (l : List (String × Child)) (k : String) (b : Bytes) :
    List (String × Child) :=
  match alookup l k with
  | some (Child.dir hp _ rd) => aset l k (Child.dir hp (some b) rd)
  | _ => l

/-- Write the `appenv.ready` marker (lines 243-244). -/
def writeMarker (l : List (String × Child)) (k : String) : List (String × Child) :=
  match alookup l k with
  | some (Child.dir hp lk _) => aset l k (Child.dir hp lk true)
  | _ => l

/-- The build block (lines 230-244): venv creation, persisting the lock
bytes, the pinned install (`--no-deps`), `pip check`, then the marker.
`evs` are the events already produced by this run. -/
def buildEnv (ident : String) (lockBytes : Bytes) (o : Oracle) (s : Store)
    (evs : List Event) : PrepResult :=
  let r := ensure_venv o.venvOk s ident
  if r.1 then
    let s2 : Store := ⟨writeLockFile r.2.1.children ident lockBytes⟩
    let evs2 := evs ++ r.2.2 ++ [Event.wroteLock ident, Event.pipInstallNoDeps ident]
    if o.installOk then
      let evs3 := evs2 ++ [Event.pipCheck ident]
      if o.checkOk then
        ⟨Except.ok ident, ⟨writeMarker s2.children ident⟩,
          evs3 ++ [Event.wroteMarker ident]⟩
      else ⟨Except.error (), s2, evs3⟩
    else ⟨Except.error (), s2, evs2⟩
  else ⟨Except.error (), r.2.1, evs ++ r.2.2⟩

/-- The clean path of `_prepare` (lines 197-246) with the identity token
already computed: janitor prune, corrupt-entry recovery, cache-hit check,
and the build. -/
def prepareClean (ident : String) (lockBytes : Bytes) (o : Oracle) (s : Store) :
    PrepResult :=
  let wl := [ident, "unclean"]
  let pEv := pruneEvents s.children wl
  let s1 : Store := ⟨pruneChildren s.children wl⟩
  match alookup s1.children ident with
  | some c =>
    if childReady c then ⟨Except.ok ident, s1, pEv⟩
    else
      buildEnv ident lockBytes o ⟨aremove s1.children ident⟩
        (pEv ++ [Event.deletedCorrupt ident])
  | none => buildEnv ident lockBytes o s1 pEv

/-- The unclean path of `_prepare` (lines 190-196): ensure the reserved
`unclean` venv, then `pip install -r requirements.txt --upgrade`. -/
def prepareUnclean (o : Oracle) (s : Store) : PrepResult :=
  let r := ensure_venv o.venvOk s "unclean"
  if r.1 then
    if o.installOk then
      ⟨Except.ok "unclean", r.2.1, r.2.2 ++ [Event.pipInstallUpgrade "unclean"]⟩
    else ⟨Except.error (), r.2.1, r.2.2 ++ [Event.pipInstallUpgrade "unclean"]⟩
  else ⟨Except.error (), r.2.1, r.2.2⟩

/-- The run configuration: the `--unclean` flag, the `requirements.lock`
file at the base (absent or its bytes), the resolved interpreter path bytes
and the program's own bytes. -/
structure Config where
  unclean : Bool
  lockFile : Option Bytes
  interp : Bytes
  selfBytes : Bytes
deriving Repr, DecidableEq

/-- `_prepare` (lines 184-246): the unclean path is taken when the flag is
set or `requirements.lock` does not exist; otherwise the identity token is
derived and the clean path runs. -/
def prepare (cfg : Config) (o : Oracle) (s : Store) : PrepResult :=
  match cfg.lockFile with
  | none => prepareUnclean o s
  | some lk =>
    if cfg.unclean then prepareUnclean o s
    else prepareClean (envHash cfg.interp lk cfg.selfBytes) lk o s

/-- Whether the store's entry `ident` is in the Ready state. -/
def isReadyS (s : Store) (ident : String) : Bool :=
  match alookup s.children ident with
  | some c => childReady c
  | none => false

/-! ## `update_lockfile` as a stateful operation (lines 133-181)

The scratch `updatelock` venv is created in the store, requirements are
installed into it, the resolved set is read back (`pip freeze`, an external
collaborator, supplied here as the `resolved` input), the merged document
is computed and written to `requirements.lock`, and then — only as the next
sequential statement, not in a `finally` block — the scratch directory is
removed. -/

/-- Success bits for the external steps of `update_lockfile`. -/
structure ULOracle where
  venvOk : Bool
  installOk : Bool
  writeOk : Bool
deriving Repr, DecidableEq

/-- Result of an `update_lockfile` run: raised or returned, the final
store, and the base `requirements.lock` content afterwards. -/
structure ULResult where
  res : Except Unit Unit
  store : Store
  lockOut : Option String
deriving Repr, DecidableEq

/-- `update_lockfile` (lines 133-181). `baseLock` is the prior content of
`requirements.lock` (or `none`); on a failed write it is left unchanged and
the exception propagates before the `rm -rf` of the scratch directory. -/
def update_lockfile (o : ULOracle) (requested resolved : List Spec) (s : Store)
    (baseLock : Option String) : ULResult :=
  let r := ensure_venv o.venvOk s "updatelock"
  if r.1 then
    if o.installOk then
      let doc := lockDocument requested resolved
      if o.writeOk then ⟨Except.ok (), ⟨aremove r.2.1.children "updatelock"⟩, some doc⟩
      else ⟨Except.error (), r.2.1, baseLock⟩
    else ⟨Except.error (), r.2.1, baseLock⟩
  else ⟨Except.error (), r.2.1, baseLock⟩

/-! ## Association-list lemmas -/

theorem alookup_dinsert_self {α : Type} (d : List (String × α)) (k : String) (v : α) :
    alookup (dinsert d k v) k = some v := by
  induction d with
  | nil => simp [dinsert, alookup]
  | cons p rest ih =>
    by_cases h : p.1 = k
    · simp [dinsert, alookup, h]
    · simp [dinsert, alookup, h, ih]

theorem alookup_dinsert_ne {α : Type} (d : List (String × α)) (k q : String) (v : α)
    (h : k ≠ q) : alookup (dinsert d k v) q = alookup d q := by
  induction d with
  | nil => simp [dinsert, alookup, h]
  | cons p rest ih =>
    by_cases hp : p.1 = k
    · simp [dinsert, alookup, hp, h]
    · simp only [dinsert, hp, if_false, alookup]
      by_cases hq : p.1 = q
      · simp [alookup, hq]
      · simp [alookup, hq, ih]

theorem mem_dinsert {α : Type} (d : List (String × α)) (k : String) (v : α)
    (q : String × α) (h : q ∈ dinsert d k v) : q ∈ d ∨ q = (k, v) := by
  induction d with
  | nil => simpa [dinsert] using h
  | cons p rest ih =>
    by_cases hp : p.1 = k
    · simp only [dinsert, hp, if_true, List.mem_cons] at h
      rcases h with h | h
      · right; exact h
      · left; exact List.mem_cons_of_mem _ h
    · simp only [dinsert, hp, if_false, List.mem_cons] at h
      rcases h with h | h
      · left; exact h ▸ List.mem_cons_self _ _
      · rcases ih h with h | h
        · left; exact List.mem_cons_of_mem _ h
        · right; exact h

theorem mem_keys_dinsert {α : Type} (d : List (String × α)) (k : String) (v : α)
    (x : String) (h : x ∈ (dinsert d k v).map Prod.fst) :
    x ∈ d.map Prod.fst ∨ x = k := by
  rcases List.mem_map.mp h with ⟨q, hq, hx⟩
  rcases mem_dinsert d k v q hq with h1 | h1
  · left; exact hx ▸ List.mem_map_of_mem _ h1
  · right; rw [← hx, h1]

theorem nodup_keys_dinsert {α : Type} (d : List (String × α)) (k : String) (v : α)
    (h : (d.map Prod.fst).Nodup) : ((dinsert d k v).map Prod.fst).Nodup := by
  induction d with
  | nil => simp [dinsert]
  | cons p rest ih =>
    by_cases hp : p.1 = k
    · simp only [dinsert, hp, if_true, List.map_cons, List.nodup_cons] at h ⊢
      exact ⟨hp ▸ h.1, h.2⟩
    · simp only [dinsert, hp, if_false, List.map_cons, List.nodup_cons] at h ⊢
      refine ⟨fun hm => ?_, ih h.2⟩
      rcases mem_keys_dinsert rest k v p.1 hm with h1 | h1
      · exact h.1 h1
      · exact hp h1

theorem alookup_mem {α : Type} (d : List (String × α)) (k : String) (v : α)
    (h : alookup d k = some v) : (k, v) ∈ d := by
  induction d with
  | nil => simp [alookup] at h
  | cons p rest ih =>
    obtain ⟨n, w⟩ := p
    by_cases hp : n = k
    · simp only [alookup, hp, if_true, Option.some.injEq] at h
      rw [← hp, ← h]
      exact List.mem_cons_self _ _
    · simp only [alookup, hp, if_false] at h
      exact List.mem_cons_of_mem _ (ih h)

/-! ## Merge characterization lemmas -/

theorem alookup_urlPass_aux (d : List (String × Spec)) (acc : List (String × Spec))
    (k : String) (hnd : (d.map Prod.fst).Nodup) :
    alookup
      (d.foldl (fun acc p => if p.2.url.isSome then dinsert acc p.1 p.2 else acc) acc)
      k =
    match alookup d k with
    | some v => if v.url.isSome then some v else alookup acc k
    | none => alookup acc k := by
  induction d generalizing acc with
  | nil => simp [alookup]
  | cons p rest ih =>
    obtain ⟨n, v⟩ := p
    simp only [List.map_cons, List.nodup_cons] at hnd
    by_cases hp : n = k
    · subst hp
      have hnone : alookup rest n = none := by
        rcases h : alookup rest n with _ | w
        · rfl
        · exact absurd (List.mem_map_of_mem Prod.fst (alookup_mem rest n w h)) hnd.1
      simp only [List.foldl_cons, alookup, if_pos rfl]
      rw [ih _ hnd.2, hnone]
      by_cases hu : v.url.isSome
      · simp [hu, alookup_dinsert_self acc n v]
      · simp [hu]
    · simp only [List.foldl_cons, alookup, hp, if_false]
      rw [ih _ hnd.2]
      by_cases hu : v.url.isSome
      · simp only [hu, if_true]
        rcases alookup rest k with _ | w
        · simp [alookup_dinsert_ne acc n k v hp]
        · by_cases hw : w.url.isSome <;>
            simp [hw, alookup_dinsert_ne acc n k v hp]
      · simp only [hu, Bool.false_eq_true, if_false]

theorem alookup_urlPass (d : List (String × Spec)) (k : String)
    (hnd : (d.map Prod.fst).Nodup) :
    alookup (urlPass d) k =
    match alookup d k with
    | some v => if v.url.isSome then some v else none
    | none => none := by
  rw [urlPass, alookup_urlPass_aux d [] k hnd]
  rcases alookup d k with _ | v <;> simp [alookup]

theorem pinnedPass_preserves (d : List (String × Spec)) (acc : List (String × Spec))
    (k : String) (w : Spec) (h : alookup acc k = some w) :
    alookup (pinnedPass d acc) k = some w := by
  induction d generalizing acc with
  | nil => simpa [pinnedPass]
  | cons p rest ih =>
    simp only [pinnedPass, List.foldl_cons]
    by_cases hs : (alookup acc p.1).isSome
    · simp only [hs, if_true]
      exact ih acc h
    · simp only [hs, if_false]
      have hne : p.1 ≠ k := by
        intro he
        rw [he, h] at hs
        simp at hs
      exact ih _ ((alookup_dinsert_ne acc p.1 k p.2 hne).trans h)

theorem pinnedPass_new (d : List (String × Spec)) (acc : List (String × Spec))
    (k : String) (h : alookup acc k = none) :
    alookup (pinnedPass d acc) k = alookup d k := by
  induction d generalizing acc with
  | nil => simpa [pinnedPass, alookup]
  | cons p rest ih =>
    obtain ⟨n, v⟩ := p
    simp only [pinnedPass, List.foldl_cons] at ih ⊢
    by_cases hp : n = k
    · subst hp
      have hs : ¬((alookup acc n).isSome = true) := by simp [h]
      rw [if_neg hs]
      simp only [alookup, if_pos rfl]
      exact pinnedPass_preserves rest _ n v (alookup_dinsert_self acc n v)
    · simp only [alookup, hp, if_false]
      by_cases hs : (alookup acc n).isSome = true
      · rw [if_pos hs]
        exact ih acc h
      · rw [if_neg hs]
        exact ih _ ((alookup_dinsert_ne acc n k v hp).trans h)

theorem nodup_keys_dictOf_aux (specs : List Spec) (acc : List (String × Spec))
    (h : (acc.map Prod.fst).Nodup) :
    (((specs.foldl (fun d sp => dinsert d sp.project_name sp) acc)).map
      Prod.fst).Nodup := by
  induction specs generalizing acc with
  | nil => simpa
  | cons sp rest ih => exact ih _ (nodup_keys_dinsert acc sp.project_name sp h)

theorem nodup_keys_dictOf (specs : List Spec) :
    ((dictOf specs).map Prod.fst).Nodup :=
  nodup_keys_dictOf_aux specs [] (by simp)

theorem nodup_keys_urlPass_aux (d : List (String × Spec)) (acc : List (String × Spec))
    (h : (acc.map Prod.fst).Nodup) :
    (((d.foldl (fun acc p => if p.2.url.isSome then dinsert acc p.1 p.2 else acc)
      acc)).map Prod.fst).Nodup := by
  induction d generalizing acc with
  | nil => simpa
  | cons p rest ih =>
    simp only [List.foldl_cons]
    by_cases hu : p.2.url.isSome
    · simp only [hu, if_true]
      exact ih _ (nodup_keys_dinsert acc p.1 p.2 h)
    · simp only [hu, Bool.false_eq_true, if_false]
      exact ih _ h

theorem nodup_keys_pinnedPass (d : List (String × Spec)) (acc : List (String × Spec))
    (h : (acc.map Prod.fst).Nodup) : ((pinnedPass d acc).map Prod.fst).Nodup := by
  induction d generalizing acc with
  | nil => simpa [pinnedPass]
  | cons p rest ih =>
    simp only [pinnedPass, List.foldl_cons] at ih ⊢
    by_cases hs : (alookup acc p.1).isSome
    · simp only [hs, if_true]
      exact ih _ h
    · simp only [hs, Bool.false_eq_true, if_false]
      exact ih _ (nodup_keys_dinsert acc p.1 p.2 h)

theorem nodup_keys_mergeVersions (requested resolved : List Spec) :
    ((mergeVersions requested resolved).map Prod.fst).Nodup :=
  nodup_keys_pinnedPass _ _ (nodup_keys_urlPass_aux _ [] (by simp))

/-- Every binding in a dict built by the merge maps a name to a spec with
that very project name. -/
def goodDict (d : List (String × Spec)) : Prop :=
  ∀ p ∈ d, Spec.project_name p.2 = p.1

theorem goodDict_dinsert (d : List (String × Spec)) (k : String) (v : Spec)
    (h : goodDict d) (hv : v.project_name = k) : goodDict (dinsert d k v) := by
  intro q hq
  rcases mem_dinsert d k v q hq with h1 | h1
  · exact h q h1
  · rw [h1]; exact hv

theorem goodDict_dictOf_aux (specs : List Spec) (acc : List (String × Spec))
    (h : goodDict acc) :
    goodDict (specs.foldl (fun d sp => dinsert d sp.project_name sp) acc) := by
  induction specs generalizing acc with
  | nil => simpa
  | cons sp rest ih => exact ih _ (goodDict_dinsert acc sp.project_name sp h rfl)

theorem goodDict_urlPass_aux (d : List (String × Spec)) (acc : List (String × Spec))
    (hd : goodDict d) (h : goodDict acc) :
    goodDict (d.foldl
      (fun acc p => if p.2.url.isSome then dinsert acc p.1 p.2 else acc) acc) := by
  induction d generalizing acc with
  | nil => simpa
  | cons p rest ih =>
    have hrest : goodDict rest := fun q hq => hd q (List.mem_cons_of_mem _ hq)
    simp only [List.foldl_cons]
    by_cases hu : p.2.url.isSome
    · simp only [hu, if_true]
      exact ih _ hrest (goodDict_dinsert acc p.1 p.2 h (hd p (List.mem_cons_self _ _)))
    · simp only [hu, Bool.false_eq_true, if_false]
      exact ih _ hrest h

theorem goodDict_pinnedPass (d : List (String × Spec)) (acc : List (String × Spec))
    (hd : goodDict d) (h : goodDict acc) : goodDict (pinnedPass d acc) := by
  induction d generalizing acc with
  | nil => simpa [pinnedPass]
  | cons p rest ih =>
    have hrest : goodDict rest := fun q hq => hd q (List.mem_cons_of_mem _ hq)
    simp only [pinnedPass, List.foldl_cons] at ih ⊢
    by_cases hs : (alookup acc p.1).isSome
    · simp only [hs, if_true]
      exact ih _ hrest h
    · simp only [hs, Bool.false_eq_true, if_false]
      exact ih _ hrest (goodDict_dinsert acc p.1 p.2 h (hd p (List.mem_cons_self _ _)))

theorem goodDict_mergeVersions (requested resolved : List Spec) :
    goodDict (mergeVersions requested resolved) :=
  goodDict_pinnedPass _ _ (goodDict_dictOf_aux resolved [] (by intro q hq; simp at hq))
    (goodDict_urlPass_aux _ [] (goodDict_dictOf_aux requested [] (by intro q hq; simp at hq))
      (by intro q hq; simp at hq))

theorem alookup_mergeVersions (requested resolved : List Spec) (k : String) :
    alookup (mergeVersions requested resolved) k =
    match alookup (urlPass (dictOf requested)) k with
    | some v => some v
    | none => alookup (dictOf resolved) k := by
  rcases h : alookup (urlPass (dictOf requested)) k with _ | v
  · exact pinnedPass_new (dictOf resolved) _ k h
  · exact pinnedPass_preserves (dictOf resolved) _ k v h

/-! ## Claims about the lock merger -/

/-- Claim C5: in the lock merge, every requested spec carrying a source URL
is included verbatim in the output and wins over any resolved/pinned spec
with the same name, regardless of the resolved version; and for names with
no URL-pinned requested spec the merged binding is exactly the resolved
one. -/
theorem merge_url_precedence (requested resolved : List Spec) (sp : Spec)
    (hreq : alookup (dictOf requested) sp.project_name = some sp)
    (hurl : sp.url.isSome = true) :
    alookup (mergeVersions requested resolved) sp.project_name = some sp ∧
    Spec.str sp ∈ mergeLines requested resolved ∧
    (∀ n : String,
      (∀ q : Spec, alookup (dictOf requested) n = some q → q.url = none) →
      alookup (mergeVersions requested resolved) n = alookup (dictOf resolved) n) := by
  have hmain : alookup (mergeVersions requested resolved) sp.project_name = some sp := by
    rw [alookup_mergeVersions, alookup_urlPass _ _ (nodup_keys_dictOf requested), hreq]
    simp [hurl]
  refine ⟨hmain, ?_, ?_⟩
  · have hmem := alookup_mem _ _ _ hmain
    have hstr : Spec.str sp ∈
        (mergeVersions requested resolved).map (fun p => Spec.str p.2) :=
      List.mem_map.mpr ⟨_, hmem, rfl⟩
    rw [mergeLines]
    exact (List.mem_insertionSort _).mpr hstr
  · intro n hn
    rw [alookup_mergeVersions, alookup_urlPass _ _ (nodup_keys_dictOf requested)]
    rcases h : alookup (dictOf requested) n with _ | q
    · rfl
    · have hq := hn q h
      simp [hq]

/-- A requested spec pinned to a source URL, for the witness. -/
def wReq : Spec := ⟨"pkg", "pkg@ git+https://example/repo", some "git+https://example/repo"⟩

/-- A registry-resolved pin for the same name, for the witness. -/
def wRes : Spec := ⟨"pkg", "pkg==1.2.3", none⟩

/-- Witness for C5 at a concrete merge input. -/
theorem merge_url_precedence_witness :
    alookup (mergeVersions [wReq] [wRes]) (Spec.project_name wReq) = some wReq ∧
    Spec.str wReq ∈ mergeLines [wReq] [wRes] ∧
    (∀ n : String,
      (∀ q : Spec, alookup (dictOf [wReq]) n = some q → q.url = none) →
      alookup (mergeVersions [wReq] [wRes]) n = alookup (dictOf [wRes]) n) :=
  merge_url_precedence [wReq] [wRes] wReq (by decide) (by decide)

/-- Claim C7: the merged lock document's lines are sorted lexicographically
by each spec's full string representation, and the document ends with a
trailing newline. Both facts are properties of the pure function
`lockDocument`, so identical inputs always produce byte-identical output. -/
theorem mergeLines_sorted_and_trailing_newline (requested resolved : List Spec) :
    List.Sorted (· ≤ ·) (mergeLines requested resolved) ∧
    ∃ body, lockDocument requested resolved = body ++ "\n" :=
  ⟨List.sorted_insertionSort (· ≤ ·) _, _, rfl⟩

/-- Claim C8: the merged output never contains two entries with the same
dependency name: the merged name-to-spec map has pairwise-distinct project
names, and the emitted lines are exactly (a permutation, namely the sorted
arrangement, of) the string forms of those specs. -/
theorem merge_no_duplicate_names (requested resolved : List Spec) :
    ((mergeVersions requested resolved).map (fun p => Spec.project_name p.2)).Nodup ∧
    (mergeLines requested resolved).Perm
      ((mergeVersions requested resolved).map (fun p => Spec.str p.2)) := by
  constructor
  · have h2 := goodDict_mergeVersions requested resolved
    have hmap : (mergeVersions requested resolved).map (fun p => Spec.project_name p.2) =
        (mergeVersions requested resolved).map Prod.fst :=
      List.map_congr_left (fun p hp => h2 p hp)
    rw [hmap]
    exact nodup_keys_mergeVersions requested resolved
  · exact List.perm_insertionSort _ _

/-! ## Claims about the identity hasher -/

/-- Claim C6, counterexample: two lock byte strings of equal length that
differ in exactly one byte (the last, 198 versus 245) yet produce the same
8-character identity token `d0f475c6` under the same interpreter-path and
program bytes. The 32-bit truncation of the SHA-256 digest is therefore not
injective on single-byte changes. -/
theorem envHash_single_byte_collision :
    ([48, 48, 48, 48, 57, 52, 52, 50, 48, 198] : Bytes) ≠
      [48, 48, 48, 48, 57, 52, 52, 50, 48, 245] ∧
    ([48, 48, 48, 48, 57, 52, 52, 50, 48, 198] : Bytes).length =
      ([48, 48, 48, 48, 57, 52, 52, 50, 48, 245] : Bytes).length ∧
    ((List.zip ([48, 48, 48, 48, 57, 52, 52, 50, 48, 198] : Bytes)
        ([48, 48, 48, 48, 57, 52, 52, 50, 48, 245] : Bytes)).filter
      (fun p => !(p.1 == p.2))).length = 1 ∧
    envHash [105] [48, 48, 48, 48, 57, 52, 52, 50, 48, 198] [115] =
      envHash [105] [48, 48, 48, 48, 57, 52, 52, 50, 48, 245] [115] :=
  ⟨by decide, by decide, by decide, by rfl⟩

/-- Claim C6 (amended): changing any one of the three hash inputs — in
particular changing a single byte of one input — always changes the
concatenated hash preimage, so the full SHA-256 input differs; the
8-character truncated token, however, is not guaranteed to differ (see the
counterexample). -/
theorem hashInput_change_sensitive (a a2 b b2 c c2 : Bytes) :
    (a ≠ a2 → hashInput a b c ≠ hashInput a2 b c) ∧
    (b ≠ b2 → hashInput a b c ≠ hashInput a b2 c) ∧
    (c ≠ c2 → hashInput a b c ≠ hashInput a b c2) := by
  have hre : ∀ x y z : Bytes, hashInput x y z = x ++ (y ++ z) := by
    intro x y z
    simp [hashInput, List.append_assoc]
  refine ⟨fun h he => h ?_, fun h he => h ?_, fun h he => h ?_⟩
  · rw [hre, hre] at he
    exact List.append_cancel_right he
  · rw [hre, hre] at he
    exact List.append_cancel_right (List.append_cancel_left he)
  · rw [hre, hre] at he
    exact List.append_cancel_left (List.append_cancel_left he)

/-- Witness for the amended C6 at concrete single-byte changes. -/
theorem hashInput_change_sensitive_witness :
    hashInput [1] [2] [3] ≠ hashInput [9] [2] [3] ∧
    hashInput [1] [2] [3] ≠ hashInput [1] [9] [3] ∧
    hashInput [1] [2] [3] ≠ hashInput [1] [2] [9] :=
  ⟨(hashInput_change_sensitive [1] [9] [2] [2] [3] [3]).1 (by decide),
   (hashInput_change_sensitive [1] [1] [2] [9] [3] [3]).2.1 (by decide),
   (hashInput_change_sensitive [1] [1] [2] [2] [3] [9]).2.2 (by decide)⟩

/-! ## Store lemmas -/

theorem alookup_aset_self {α : Type} (l : List (String × α)) (k : String) (c : α) :
    alookup (aset l k c) k = some c := by
  induction l with
  | nil => simp [aset, alookup]
  | cons p rest ih =>
    by_cases h : p.1 = k
    · simp [aset, alookup, h]
    · simp [aset, alookup, h, ih]

theorem alookup_aset_ne {α : Type} (l : List (String × α)) (k q : String) (c : α)
    (h : k ≠ q) : alookup (aset l k c) q = alookup l q := by
  induction l with
  | nil => simp [aset, alookup, h]
  | cons p rest ih =>
    by_cases hp : p.1 = k
    · simp [aset, alookup, hp, h]
    · simp only [aset, hp, if_false, alookup]
      by_cases hq : p.1 = q
      · simp [alookup, hq]
      · simp [alookup, hq, ih]

theorem mem_aset {α : Type} (l : List (String × α)) (k : String) (c : α)
    (q : String × α) (h : q ∈ aset l k c) : q ∈ l ∨ q = (k, c) := by
  induction l with
  | nil => simpa [aset] using h
  | cons p rest ih =>
    by_cases hp : p.1 = k
    · simp only [aset, hp, if_true, List.mem_cons] at h
      rcases h with h | h
      · right; exact h
      · left; exact List.mem_cons_of_mem _ h
    · simp only [aset, hp, if_false, List.mem_cons] at h
      rcases h with h | h
      · left; exact h ▸ List.mem_cons_self _ _
      · rcases ih h with h | h
        · left; exact List.mem_cons_of_mem _ h
        · right; exact h

theorem alookup_aremove_self {α : Type} (l : List (String × α)) (k : String) :
    alookup (aremove l k) k = none := by
  induction l with
  | nil => rfl
  | cons p rest ih =>
    rw [aremove, List.filter_cons]
    rw [aremove] at ih
    by_cases h : p.1 = k
    · rw [if_neg (by simp [h])]
      exact ih
    · rw [if_pos (by simp [h])]
      simp only [alookup]
      rw [if_neg h]
      exact ih

theorem mem_aremove {α : Type} (l : List (String × α)) (k : String)
    (q : String × α) (h : q ∈ aremove l k) : q ∈ l :=
  List.mem_of_mem_filter h

theorem alookup_pruneChildren (l : List (String × Child)) (wl : List String)
    (k : String) (hk : wl.contains k = true) :
    alookup (pruneChildren l wl) k = alookup l k := by
  induction l with
  | nil => rfl
  | cons p rest ih =>
    rw [pruneChildren, List.filter_cons]
    rw [pruneChildren] at ih
    by_cases hw : (hiddenName p.1 || wl.contains p.1) = true
    · rw [if_pos hw]
      simp only [alookup]
      rw [ih]
    · rw [if_neg hw]
      have hp : ¬(p.1 = k) := by
        intro he
        exact hw (by rw [he, hk, Bool.or_true])
      rw [ih]
      simp only [alookup]
      rw [if_neg hp]

theorem pruneChildren_eq_self (l : List (String × Child)) (wl : List String)
    (h : ∀ p ∈ l, (hiddenName p.1 || wl.contains p.1) = true) :
    pruneChildren l wl = l :=
  List.filter_eq_self.mpr h

theorem pruneEvents_eq_nil (l : List (String × Child)) (wl : List String)
    (h : ∀ p ∈ l, (hiddenName p.1 || wl.contains p.1) = true) :
    pruneEvents l wl = [] := by
  rw [pruneEvents]
  have hf : l.filter (fun p => !(hiddenName p.1) && !(wl.contains p.1)) = [] := by
    rw [List.filter_eq_nil_iff]
    intro a ha
    have hor := h a ha
    intro hcon
    rcases Bool.or_eq_true_iff.mp hor with h1 | h1 <;> rw [h1] at hcon <;> simp at hcon
  rw [hf]
  rfl

theorem pruneEvents_shape (l : List (String × Child)) (wl : List String)
    (e : Event) (h : e ∈ pruneEvents l wl) : ∃ n, e = Event.removedExpired n := by
  rw [pruneEvents] at h
  rcases List.mem_map.mp h with ⟨p, _, he⟩
  exact ⟨p.1, he.symm⟩

/-- The events of one full successful build, in order. -/
def buildEvents (ident : String) : List Event :=
  [Event.createdVenv ident, Event.ensuredPip ident, Event.wroteLock ident,
   Event.pipInstallNoDeps ident, Event.pipCheck ident, Event.wroteMarker ident]

theorem buildEnv_eq_venvFail (ident : String) (lb : Bytes) (oi oc : Bool) (s : Store)
    (evs : List Event) (hs : alookup s.children ident = none) :
    buildEnv ident lb ⟨false, oi, oc⟩ s evs =
      ⟨Except.error (), ⟨aset s.children ident (Child.dir false none false)⟩,
       evs ++ [Event.createdVenv ident, Event.ensuredPip ident]⟩ := by
  simp [buildEnv, ensure_venv, hs]

theorem buildEnv_eq_installFail (ident : String) (lb : Bytes) (oc : Bool) (s : Store)
    (evs : List Event) (hs : alookup s.children ident = none) :
    buildEnv ident lb ⟨true, false, oc⟩ s evs =
      ⟨Except.error (),
       ⟨aset (aset (aset s.children ident (Child.dir false none false)) ident
          (Child.dir true none false)) ident (Child.dir true (some lb) false)⟩,
       evs ++ [Event.createdVenv ident, Event.ensuredPip ident,
         Event.wroteLock ident, Event.pipInstallNoDeps ident]⟩ := by
  simp [buildEnv, ensure_venv, hs, writeLockFile, alookup_aset_self]

theorem buildEnv_eq_checkFail (ident : String) (lb : Bytes) (s : Store)
    (evs : List Event) (hs : alookup s.children ident = none) :
    buildEnv ident lb ⟨true, true, false⟩ s evs =
      ⟨Except.error (),
       ⟨aset (aset (aset s.children ident (Child.dir false none false)) ident
          (Child.dir true none false)) ident (Child.dir true (some lb) false)⟩,
       evs ++ [Event.createdVenv ident, Event.ensuredPip ident,
         Event.wroteLock ident, Event.pipInstallNoDeps ident, Event.pipCheck ident]⟩ := by
  simp [buildEnv, ensure_venv, hs, writeLockFile, alookup_aset_self]

theorem buildEnv_eq_ok (ident : String) (lb : Bytes) (s : Store)
    (evs : List Event) (hs : alookup s.children ident = none) :
    buildEnv ident lb ⟨true, true, true⟩ s evs =
      ⟨Except.ok ident,
       ⟨aset (aset (aset (aset s.children ident (Child.dir false none false)) ident
          (Child.dir true none false)) ident (Child.dir true (some lb) false)) ident
          (Child.dir true (some lb) true)⟩,
       evs ++ buildEvents ident⟩ := by
  simp [buildEnv, ensure_venv, hs, writeLockFile, writeMarker, alookup_aset_self,
    buildEvents]

/-- Branch equation for `prepareClean`. -/
theorem prepareClean_eq (ident : String) (lb : Bytes) (o : Oracle) (s : Store) :
    prepareClean ident lb o s =
      match alookup (pruneChildren s.children [ident, "unclean"]) ident with
      | some c =>
        if childReady c then
          ⟨Except.ok ident, ⟨pruneChildren s.children [ident, "unclean"]⟩,
            pruneEvents s.children [ident, "unclean"]⟩
        else
          buildEnv ident lb o
            ⟨aremove (pruneChildren s.children [ident, "unclean"]) ident⟩
            (pruneEvents s.children [ident, "unclean"] ++ [Event.deletedCorrupt ident])
      | none =>
        buildEnv ident lb o ⟨pruneChildren s.children [ident, "unclean"]⟩
          (pruneEvents s.children [ident, "unclean"]) := rfl

theorem buildEnv_marker_last (ident : String) (lb : Bytes) (o : Oracle) (s : Store)
    (evs : List Event) (hs : alookup s.children ident = none)
    (hevs : ∀ e ∈ evs, e ≠ Event.wroteMarker ident) :
    ((buildEnv ident lb o s evs).res = Except.error () →
      Event.wroteMarker ident ∉ (buildEnv ident lb o s evs).trace ∧
      isReadyS (buildEnv ident lb o s evs).store ident = false) ∧
    (Event.wroteMarker ident ∈ (buildEnv ident lb o s evs).trace →
      (buildEnv ident lb o s evs).res = Except.ok ident ∧
      o.venvOk = true ∧ o.installOk = true ∧ o.checkOk = true ∧
      (buildEnv ident lb o s evs).trace = evs ++ buildEvents ident ∧
      Event.wroteMarker ident ∉ evs) := by
  obtain ⟨ov, oi, oc⟩ := o
  have hnm : ∀ tail : List Event,
      (∀ e ∈ tail, e ≠ Event.wroteMarker ident) →
      Event.wroteMarker ident ∉ evs ++ tail := by
    intro tail ht hm
    rcases List.mem_append.mp hm with hm | hm
    · exact hevs _ hm rfl
    · exact ht _ hm rfl
  cases ov
  · rw [buildEnv_eq_venvFail ident lb oi oc s evs hs]
    refine ⟨fun _ => ⟨hnm _ (by simp), ?_⟩, fun hm => absurd hm (hnm _ (by simp))⟩
    simp [isReadyS, alookup_aset_self, childReady]
  · cases oi
    · rw [buildEnv_eq_installFail ident lb oc s evs hs]
      refine ⟨fun _ => ⟨hnm _ (by simp), ?_⟩, fun hm => absurd hm (hnm _ (by simp))⟩
      simp [isReadyS, alookup_aset_self, childReady]
    · cases oc
      · rw [buildEnv_eq_checkFail ident lb s evs hs]
        refine ⟨fun _ => ⟨hnm _ (by simp), ?_⟩, fun hm => absurd hm (hnm _ (by simp))⟩
        simp [isReadyS, alookup_aset_self, childReady]
      · rw [buildEnv_eq_ok ident lb s evs hs]
        refine ⟨fun h => ?_, fun hm => ⟨rfl, rfl, rfl, rfl, rfl, fun hmm => hevs _ hmm rfl⟩⟩
        simp at h

/-- Claim C1: on the clean path, the ready marker is written only as the
last step, after venv creation, persisting the lock bytes, the pinned
install and the consistency check have all succeeded; if the run raises,
the marker was never written and the entry is not Ready. -/
theorem prepareClean_marker_last (ident : String) (lockBytes : Bytes) (o : Oracle)
    (s : Store) :
    ((prepareClean ident lockBytes o s).res = Except.error () →
      Event.wroteMarker ident ∉ (prepareClean ident lockBytes o s).trace ∧
      isReadyS (prepareClean ident lockBytes o s).store ident = false) ∧
    (Event.wroteMarker ident ∈ (prepareClean ident lockBytes o s).trace →
      (prepareClean ident lockBytes o s).res = Except.ok ident ∧
      o.venvOk = true ∧ o.installOk = true ∧ o.checkOk = true ∧
      ∃ pre, (prepareClean ident lockBytes o s).trace = pre ++ buildEvents ident ∧
        Event.wroteMarker ident ∉ pre) := by
  rw [prepareClean_eq]
  have hpe : ∀ e ∈ pruneEvents s.children [ident, "unclean"],
      e ≠ Event.wroteMarker ident := by
    intro e he
    rcases pruneEvents_shape _ _ _ he with ⟨n, hn⟩
    simp [hn]
  rcases hc : alookup (pruneChildren s.children [ident, "unclean"]) ident with _ | c
  · have h := buildEnv_marker_last ident lockBytes o
      ⟨pruneChildren s.children [ident, "unclean"]⟩
      (pruneEvents s.children [ident, "unclean"]) hc hpe
    refine ⟨h.1, fun hm => ?_⟩
    rcases h.2 hm with ⟨h1, h2, h3, h4, h5, h6⟩
    exact ⟨h1, h2, h3, h4, _, h5, h6⟩
  · by_cases hr : childReady c
    · simp only [hr, if_true]
      refine ⟨fun h => ?_, fun hm => ?_⟩
      · simp at h
      · exact absurd (hpe _ hm) (by simp)
    · simp only [hr, Bool.false_eq_true, if_false]
      have hs2 : alookup
          (aremove (pruneChildren s.children [ident, "unclean"]) ident) ident = none :=
        alookup_aremove_self _ _
      have hevs : ∀ e ∈ pruneEvents s.children [ident, "unclean"] ++
          [Event.deletedCorrupt ident], e ≠ Event.wroteMarker ident := by
        intro e he
        rcases List.mem_append.mp he with he | he
        · exact hpe _ he
        · simp only [List.mem_singleton] at he
          simp [he]
      have h := buildEnv_marker_last ident lockBytes o
        ⟨aremove (pruneChildren s.children [ident, "unclean"]) ident⟩
        (pruneEvents s.children [ident, "unclean"] ++ [Event.deletedCorrupt ident])
        hs2 hevs
      refine ⟨h.1, fun hm => ?_⟩
      rcases h.2 hm with ⟨h1, h2, h3, h4, h5, h6⟩
      exact ⟨h1, h2, h3, h4, _, h5, h6⟩

/-- Witness for C1: a failing install leaves no marker, a fully successful
run writes it last. -/
theorem prepareClean_marker_last_witness :
    (Event.wroteMarker "aa" ∉ (prepareClean "aa" [7] ⟨true, false, true⟩ ⟨[]⟩).trace ∧
      isReadyS (prepareClean "aa" [7] ⟨true, false, true⟩ ⟨[]⟩).store "aa" = false) ∧
    ((prepareClean "bb" [7] ⟨true, true, true⟩ ⟨[]⟩).res = Except.ok "bb" ∧
      true = true ∧ true = true ∧ true = true ∧
      ∃ pre, (prepareClean "bb" [7] ⟨true, true, true⟩ ⟨[]⟩).trace =
          pre ++ buildEvents "bb" ∧ Event.wroteMarker "bb" ∉ pre) :=
  ⟨(prepareClean_marker_last "aa" [7] ⟨true, false, true⟩ ⟨[]⟩).1 (by rfl),
   (prepareClean_marker_last "bb" [7] ⟨true, true, true⟩ ⟨[]⟩).2 (by decide)⟩

theorem buildEnv_ok_post (ident : String) (lb : Bytes) (o : Oracle) (s : Store)
    (evs : List Event) (hs : alookup s.children ident = none)
    (h : (buildEnv ident lb o s evs).res = Except.ok ident) :
    (∀ q ∈ (buildEnv ident lb o s evs).store.children,
      q ∈ s.children ∨ q.1 = ident) ∧
    isReadyS (buildEnv ident lb o s evs).store ident = true := by
  obtain ⟨ov, oi, oc⟩ := o
  cases ov
  · rw [buildEnv_eq_venvFail ident lb oi oc s evs hs] at h
    simp at h
  · cases oi
    · rw [buildEnv_eq_installFail ident lb oc s evs hs] at h
      simp at h
    · cases oc
      · rw [buildEnv_eq_checkFail ident lb s evs hs] at h
        simp at h
      · rw [buildEnv_eq_ok ident lb s evs hs]
        constructor
        · intro q hq
          rcases mem_aset _ _ _ _ hq with hq | hq
          · rcases mem_aset _ _ _ _ hq with hq | hq
            · rcases mem_aset _ _ _ _ hq with hq | hq
              · rcases mem_aset _ _ _ _ hq with hq | hq
                · exact Or.inl hq
                · exact Or.inr (by rw [hq])
              · exact Or.inr (by rw [hq])
            · exact Or.inr (by rw [hq])
          · exact Or.inr (by rw [hq])
        · simp [isReadyS, alookup_aset_self, childReady]

theorem prepareClean_ok_post (ident : String) (lockBytes : Bytes) (o : Oracle)
    (s : Store) (h : (prepareClean ident lockBytes o s).res = Except.ok ident) :
    (∀ q ∈ (prepareClean ident lockBytes o s).store.children,
      (hiddenName q.1 || [ident, "unclean"].contains q.1) = true) ∧
    isReadyS (prepareClean ident lockBytes o s).store ident = true := by
  have hid : (hiddenName ident ||
      ([ident, "unclean"] : List String).contains ident) = true := by simp
  have hmemf : ∀ q ∈ pruneChildren s.children [ident, "unclean"],
      (hiddenName q.1 || ([ident, "unclean"] : List String).contains q.1) = true := by
    intro q hq
    exact (List.mem_filter.mp hq).2
  rw [prepareClean_eq] at h ⊢
  rcases hc : alookup (pruneChildren s.children [ident, "unclean"]) ident with _ | c
  · rw [hc] at h
    have hb := buildEnv_ok_post ident lockBytes o
      ⟨pruneChildren s.children [ident, "unclean"]⟩
      (pruneEvents s.children [ident, "unclean"]) hc h
    refine ⟨fun q hq => ?_, hb.2⟩
    rcases hb.1 q hq with hq2 | hq2
    · exact hmemf q hq2
    · rw [hq2]; exact hid
  · rw [hc] at h
    by_cases hr : childReady c
    · simp only [hr, if_true]
      refine ⟨hmemf, ?_⟩
      rw [isReadyS]
      rw [hc]
      exact hr
    · simp only [hr, Bool.false_eq_true, if_false] at h ⊢
      have hs2 : alookup
          (aremove (pruneChildren s.children [ident, "unclean"]) ident) ident = none :=
        alookup_aremove_self _ _
      have hb := buildEnv_ok_post ident lockBytes o
        ⟨aremove (pruneChildren s.children [ident, "unclean"]) ident⟩
        (pruneEvents s.children [ident, "unclean"] ++ [Event.deletedCorrupt ident])
        hs2 h
      refine ⟨fun q hq => ?_, hb.2⟩
      rcases hb.1 q hq with hq2 | hq2
      · exact hmemf q (mem_aremove _ _ _ hq2)
      · rw [hq2]; exact hid

theorem prepareClean_ready_noop (ident : String) (lockBytes : Bytes) (o : Oracle)
    (s : Store)
    (hkeys : ∀ q ∈ s.children,
      (hiddenName q.1 || ([ident, "unclean"] : List String).contains q.1) = true)
    (hready : isReadyS s ident = true) :
    prepareClean ident lockBytes o s = ⟨Except.ok ident, s, []⟩ := by
  rw [prepareClean_eq]
  rw [pruneChildren_eq_self _ _ hkeys, pruneEvents_eq_nil _ _ hkeys]
  rcases hl : alookup s.children ident with _ | c
  · rw [isReadyS, hl] at hready
    simp at hready
  · rw [isReadyS, hl] at hready
    have hr2 : childReady c = true := hready
    simp only [hr2, if_true]

/-- Claim C2: after a successful clean run, the entry carries the ready
marker, and a second run with the same identity and lock bytes returns the
same directory path with the store unchanged and an empty trace: no
command is issued and nothing is deleted, whatever its oracle would say. -/
theorem prepareClean_idempotent (ident : String) (lockBytes : Bytes) (o o2 : Oracle)
    (s : Store) (h : (prepareClean ident lockBytes o s).res = Except.ok ident) :
    isReadyS (prepareClean ident lockBytes o s).store ident = true ∧
    prepareClean ident lockBytes o2 (prepareClean ident lockBytes o s).store =
      ⟨Except.ok ident, (prepareClean ident lockBytes o s).store, []⟩ := by
  have hp := prepareClean_ok_post ident lockBytes o s h
  exact ⟨hp.2, prepareClean_ready_noop _ _ _ _ hp.1 hp.2⟩

/-- Witness for C2 at a concrete first build from an empty store. -/
theorem prepareClean_idempotent_witness :
    isReadyS (prepareClean "aa" [7] ⟨true, true, true⟩ ⟨[]⟩).store "aa" = true ∧
    prepareClean "aa" [7] ⟨false, false, false⟩
        (prepareClean "aa" [7] ⟨true, true, true⟩ ⟨[]⟩).store =
      ⟨Except.ok "aa", (prepareClean "aa" [7] ⟨true, true, true⟩ ⟨[]⟩).store, []⟩ :=
  prepareClean_idempotent "aa" [7] ⟨true, true, true⟩ ⟨false, false, false⟩ ⟨[]⟩
    (by rfl)

/-- Claim C3: when the current identity's store entry exists but lacks the
ready marker, the clean run deletes it, rebuilds it from scratch, ends in
the Ready state, and returns the path normally (the recovery itself is
never surfaced as an error). -/
theorem prepareClean_corrupt_recovery (ident : String) (lockBytes : Bytes)
    (o : Oracle) (s : Store) (c : Child)
    (hc : alookup s.children ident = some c) (hnr : childReady c = false)
    (hv : o.venvOk = true) (hi : o.installOk = true) (hch : o.checkOk = true) :
    (prepareClean ident lockBytes o s).res = Except.ok ident ∧
    isReadyS (prepareClean ident lockBytes o s).store ident = true ∧
    (prepareClean ident lockBytes o s).trace =
      pruneEvents s.children [ident, "unclean"] ++
        (Event.deletedCorrupt ident :: buildEvents ident) := by
  obtain ⟨ov, oi, oc⟩ := o
  simp only at hv hi hch
  subst hv hi hch
  rw [prepareClean_eq]
  have hl2 : alookup (pruneChildren s.children [ident, "unclean"]) ident = some c := by
    rw [alookup_pruneChildren _ _ _ (by simp), hc]
  rw [hl2]
  simp only [hnr, Bool.false_eq_true, if_false]
  have hs2 : alookup
      (aremove (pruneChildren s.children [ident, "unclean"]) ident) ident = none :=
    alookup_aremove_self _ _
  rw [buildEnv_eq_ok ident lockBytes
    ⟨aremove (pruneChildren s.children [ident, "unclean"]) ident⟩
    (pruneEvents s.children [ident, "unclean"] ++ [Event.deletedCorrupt ident]) hs2]
  refine ⟨rfl, by simp [isReadyS, alookup_aset_self, childReady], by simp⟩

/-- Witness for C3: a concrete store whose entry for the identity exists
without the marker is rebuilt to Ready. -/
theorem prepareClean_corrupt_recovery_witness :
    (prepareClean "aa" [7] ⟨true, true, true⟩
      ⟨[("aa", Child.dir true (some [9]) false)]⟩).res = Except.ok "aa" ∧
    isReadyS (prepareClean "aa" [7] ⟨true, true, true⟩
      ⟨[("aa", Child.dir true (some [9]) false)]⟩).store "aa" = true ∧
    (prepareClean "aa" [7] ⟨true, true, true⟩
      ⟨[("aa", Child.dir true (some [9]) false)]⟩).trace =
      pruneEvents [("aa", Child.dir true (some [9]) false)] ["aa", "unclean"] ++
        (Event.deletedCorrupt "aa" :: buildEvents "aa") :=
  prepareClean_corrupt_recovery "aa" [7] ⟨true, true, true⟩
    ⟨[("aa", Child.dir true (some [9]) false)]⟩ (Child.dir true (some [9]) false)
    (by rfl) (by rfl) (by rfl) (by rfl) (by rfl)

/-- Claim C4 (amended): after the janitor prune on the clean path, the
surviving children are exactly the original children whose name is the
current identity, the reserved "unclean", or dot-prefixed (hidden names
are never enumerated by the glob, so the janitor never removes them);
every enumerated other child, file or directory, is removed, with a
removal event recorded. In particular the children after the prune need
not be exactly the pair {identity, "unclean"}: either may be absent if it
did not exist before, and hidden children survive. -/
theorem prune_janitor_amended (s : Store) (ident : String) :
    (∀ q : String × Child,
      q ∈ pruneChildren s.children [ident, "unclean"] ↔
        q ∈ s.children ∧
          (hiddenName q.1 = true ∨ q.1 = ident ∨ q.1 = "unclean")) ∧
    (∀ n : String, ∀ c : Child, (n, c) ∈ s.children →
      hiddenName n = false → n ≠ ident → n ≠ "unclean" →
      Event.removedExpired n ∈ pruneEvents s.children [ident, "unclean"]) := by
  constructor
  · intro q
    rw [pruneChildren, List.mem_filter]
    constructor
    · intro hq
      refine ⟨hq.1, ?_⟩
      have := hq.2
      rcases Bool.or_eq_true_iff.mp this with h1 | h1
      · exact Or.inl h1
      · right
        simpa using h1
    · intro hq
      refine ⟨hq.1, ?_⟩
      rcases hq.2 with h1 | h1
      · rw [h1, Bool.true_or]
      · rw [Bool.or_eq_true_iff]
        right
        simpa using h1
  · intro n c hm hh hni hnu
    rw [pruneEvents]
    refine List.mem_map.mpr ⟨(n, c), List.mem_filter.mpr ⟨hm, ?_⟩, rfl⟩
    simp [hh, hni, hnu]

/-- Claim C4, counterexample, refuting the original claim twice over. A
store holding only a stale file and no "unclean" child: after the prune
the store is empty, and even after the full successful build of the
current identity the children are that identity alone — never the claimed
pair, since nothing creates the reserved "unclean" entry on the clean
path. And a store holding only a hidden dot-prefixed file: the glob never
enumerates it, so this child — neither the identity nor "unclean" — is
not removed by the prune. -/
theorem prune_janitor_counterexample :
    (pruneChildren [("stale", Child.file)] ["0a1b2c3d", "unclean"] = [] ∧
      "unclean" ∉
        (pruneChildren [("stale", Child.file)] ["0a1b2c3d", "unclean"]).map Prod.fst) ∧
    ((prepareClean "0a1b2c3d" [7] ⟨true, true, true⟩
        ⟨[("stale", Child.file)]⟩).store.children.map Prod.fst = ["0a1b2c3d"] ∧
      "unclean" ∉ (prepareClean "0a1b2c3d" [7] ⟨true, true, true⟩
        ⟨[("stale", Child.file)]⟩).store.children.map Prod.fst) ∧
    pruneChildren [(".DS_Store", Child.file)] ["0a1b2c3d", "unclean"] =
      [(".DS_Store", Child.file)] ∧
    (prepareClean "0a1b2c3d" [7] ⟨true, true, true⟩
        ⟨[(".DS_Store", Child.file)]⟩).store.children.map Prod.fst =
      [".DS_Store", "0a1b2c3d"] := by
  decide

theorem ensure_venv_ok_lookup (s : Store) (t : String) :
    (ensure_venv true s t).1 = true ∧
    ∃ lk rd, alookup (ensure_venv true s t).2.1.children t = some (Child.dir true lk rd) := by
  rw [ensure_venv]
  rcases hl : alookup s.children t with _ | c
  · exact ⟨rfl, none, false, alookup_aset_self _ _ _⟩
  · rcases c with _ | ⟨hp, lk, rd⟩
    · exact ⟨rfl, none, false, alookup_aset_self _ _ _⟩
    · cases hp
      · exact ⟨rfl, none, false, alookup_aset_self _ _ _⟩
      · exact ⟨rfl, lk, rd, hl⟩

theorem ensure_venv_trace_shape (ok : Bool) (s : Store) (t : String) :
    ∀ e ∈ (ensure_venv ok s t).2.2,
      e = Event.deletedUncleanTarget t ∨ e = Event.createdVenv t ∨
      e = Event.ensuredPip t := by
  rw [ensure_venv]
  rcases alookup s.children t with _ | c
  · cases ok <;> simp
  · rcases c with _ | ⟨hp, lk, rd⟩
    · cases ok <;> simp
    · cases hp
      · cases ok <;> simp
      · simp

theorem prepareUnclean_trace_shape (o : Oracle) (s : Store) :
    ∀ e ∈ (prepareUnclean o s).trace,
      e = Event.deletedUncleanTarget "unclean" ∨ e = Event.createdVenv "unclean" ∨
      e = Event.ensuredPip "unclean" ∨ e = Event.pipInstallUpgrade "unclean" := by
  intro e he
  simp only [prepareUnclean] at he
  by_cases hr : (ensure_venv o.venvOk s "unclean").1 = true
  · rw [if_pos hr] at he
    by_cases hi : o.installOk = true
    · rw [if_pos hi] at he
      rcases List.mem_append.mp he with he | he
      · rcases ensure_venv_trace_shape o.venvOk s "unclean" e he with h | h | h
        · exact Or.inl h
        · exact Or.inr (Or.inl h)
        · exact Or.inr (Or.inr (Or.inl h))
      · simp only [List.mem_singleton] at he
        exact Or.inr (Or.inr (Or.inr he))
    · rw [if_neg hi] at he
      rcases List.mem_append.mp he with he | he
      · rcases ensure_venv_trace_shape o.venvOk s "unclean" e he with h | h | h
        · exact Or.inl h
        · exact Or.inr (Or.inl h)
        · exact Or.inr (Or.inr (Or.inl h))
      · simp only [List.mem_singleton] at he
        exact Or.inr (Or.inr (Or.inr he))
  · rw [if_neg hr] at he
    rcases ensure_venv_trace_shape o.venvOk s "unclean" e he with h | h | h
    · exact Or.inl h
    · exact Or.inr (Or.inl h)
    · exact Or.inr (Or.inr (Or.inl h))

theorem prepare_lockMissing (cfg : Config) (o : Oracle) (s : Store)
    (h : cfg.lockFile = none) : prepare cfg o s = prepareUnclean o s := by
  obtain ⟨u, lf, ip, sb⟩ := cfg
  simp only at h
  subst h
  rfl

/-- Claim C10: when the lock file does not exist, `_prepare` takes the
unclean path even without the unclean flag: it installs from
requirements.txt with upgrade semantics into the reserved "unclean"
directory, runs no janitor prune and writes no ready marker, and its result
does not depend on the interpreter path or the program bytes (no identity
hash enters the computation). -/
theorem prepare_missing_lock_unclean (cfg : Config) (o : Oracle) (s : Store)
    (h : cfg.lockFile = none) :
    prepare cfg o s = prepareUnclean o s ∧
    (o.venvOk = true → o.installOk = true →
      (prepare cfg o s).res = Except.ok "unclean" ∧
      Event.pipInstallUpgrade "unclean" ∈ (prepare cfg o s).trace) ∧
    (∀ n : String, Event.removedExpired n ∉ (prepare cfg o s).trace ∧
      Event.wroteMarker n ∉ (prepare cfg o s).trace) ∧
    (∀ cfg2 : Config, cfg2.lockFile = none → prepare cfg2 o s = prepare cfg o s) := by
  have he := prepare_lockMissing cfg o s h
  refine ⟨he, ?_, ?_, ?_⟩
  · intro hv hi
    rw [he]
    obtain ⟨ov, oi, oc⟩ := o
    simp only at hv hi
    subst hv hi
    have hr := (ensure_venv_ok_lookup s "unclean").1
    simp only [prepareUnclean]
    rw [if_pos hr]
    simp
  · intro n
    rw [he]
    constructor
    · intro hm
      rcases prepareUnclean_trace_shape o s _ hm with h2 | h2 | h2 | h2 <;> simp at h2
    · intro hm
      rcases prepareUnclean_trace_shape o s _ hm with h2 | h2 | h2 | h2 <;> simp at h2
  · intro cfg2 h2
    rw [he, prepare_lockMissing cfg2 o s h2]

/-- Witness for C10 at a concrete configuration with no lock file. -/
theorem prepare_missing_lock_unclean_witness :
    prepare ⟨false, none, [1], [2]⟩ ⟨true, true, true⟩ ⟨[]⟩ =
      prepareUnclean ⟨true, true, true⟩ ⟨[]⟩ ∧
    (true = true → true = true →
      (prepare ⟨false, none, [1], [2]⟩ ⟨true, true, true⟩ ⟨[]⟩).res =
        Except.ok "unclean" ∧
      Event.pipInstallUpgrade "unclean" ∈
        (prepare ⟨false, none, [1], [2]⟩ ⟨true, true, true⟩ ⟨[]⟩).trace) ∧
    (∀ n : String,
      Event.removedExpired n ∉
        (prepare ⟨false, none, [1], [2]⟩ ⟨true, true, true⟩ ⟨[]⟩).trace ∧
      Event.wroteMarker n ∉
        (prepare ⟨false, none, [1], [2]⟩ ⟨true, true, true⟩ ⟨[]⟩).trace) ∧
    (∀ cfg2 : Config, cfg2.lockFile = none →
      prepare cfg2 ⟨true, true, true⟩ ⟨[]⟩ =
        prepare ⟨false, none, [1], [2]⟩ ⟨true, true, true⟩ ⟨[]⟩) :=
  prepare_missing_lock_unclean ⟨false, none, [1], [2]⟩ ⟨true, true, true⟩ ⟨[]⟩ rfl

/-- Claim C9, counterexample: with the merged document already computed,
a failing lock-file write raises before the `rm -rf` of the scratch
directory is reached, so the `updatelock` entry is still present in the
store afterwards — the cleanup is not unconditional. -/
theorem update_lockfile_cleanup_counterexample :
    (update_lockfile ⟨true, true, false⟩ [] [] ⟨[]⟩ none).res = Except.error () ∧
    (alookup (update_lockfile ⟨true, true, false⟩ [] [] ⟨[]⟩ none).store.children
      "updatelock").isSome = true := by
  decide

/-- Claim C9 (amended): the `updatelock` scratch directory is deleted after
the merged document is successfully written; but when the write raises, the
deletion statement is never reached, the exception propagates, and the
scratch directory remains in the store (and the prior lock file content is
kept). -/
theorem update_lockfile_cleanup (o : ULOracle) (requested resolved : List Spec)
    (s : Store) (baseLock : Option String)
    (hv : o.venvOk = true) (hi : o.installOk = true) :
    (o.writeOk = true →
      (update_lockfile o requested resolved s baseLock).res = Except.ok () ∧
      alookup (update_lockfile o requested resolved s baseLock).store.children
        "updatelock" = none ∧
      (update_lockfile o requested resolved s baseLock).lockOut =
        some (lockDocument requested resolved)) ∧
    (o.writeOk = false →
      (update_lockfile o requested resolved s baseLock).res = Except.error () ∧
      (alookup (update_lockfile o requested resolved s baseLock).store.children
        "updatelock").isSome = true ∧
      (update_lockfile o requested resolved s baseLock).lockOut = baseLock) := by
  obtain ⟨ov, oi, ow⟩ := o
  simp only at hv hi
  subst hv hi
  have hr := ensure_venv_ok_lookup s "updatelock"
  simp only [update_lockfile]
  rw [if_pos hr.1]
  cases ow
  · rcases hr.2 with ⟨lk, rd, hl⟩
    constructor
    · intro hw
      simp at hw
    · intro _
      refine ⟨?_, ?_, ?_⟩ <;> simp [hl]
  · constructor
    · intro _
      refine ⟨?_, ?_, ?_⟩ <;> simp [alookup_aremove_self]
    · intro hw
      simp at hw

/-- Witness for the amended C9: one successful run deletes the scratch
directory, one failing write leaves it behind. -/
theorem update_lockfile_cleanup_witness :
    ((update_lockfile ⟨true, true, true⟩ [] [] ⟨[]⟩ none).res = Except.ok () ∧
      alookup (update_lockfile ⟨true, true, true⟩ [] [] ⟨[]⟩ none).store.children
        "updatelock" = none ∧
      (update_lockfile ⟨true, true, true⟩ [] [] ⟨[]⟩ none).lockOut =
        some (lockDocument [] [])) ∧
    ((update_lockfile ⟨true, true, false⟩ [] [] ⟨[]⟩ (some "old")).res =
        Except.error () ∧
      (alookup (update_lockfile ⟨true, true, false⟩ [] [] ⟨[]⟩
        (some "old")).store.children "updatelock").isSome = true ∧
      (update_lockfile ⟨true, true, false⟩ [] [] ⟨[]⟩ (some "old")).lockOut =
        some "old") :=
  ⟨(update_lockfile_cleanup ⟨true, true, true⟩ [] [] ⟨[]⟩ none rfl rfl).1 rfl,
   (update_lockfile_cleanup ⟨true, true, false⟩ [] [] ⟨[]⟩ (some "old") rfl rfl).2 rfl⟩
